import Mathlib

/-!
Shallow embedding of the snap-to-report web application, for checking its
natural-language specification against the code.

The embedding covers:
  * the report-string parser `parseReportString` of the uploader component
    (JSON attempt, regex fallback, null condition);
  * the dashboard aggregation `edaData` (per-category counts, unique
    categories, coordinate averages);
  * the `generate-report` proxy route handler `POST`;
  * the `submit` flow of the uploader, as a pure function from the outcomes of its
    external calls to a trace of issued effects plus the final UI state;
  * the `getLocation` wrapper around the browser geolocation API.

JavaScript strings are modelled as `List Char`; JavaScript runtime values
produced by `JSON.parse` are modelled by the inductive type `Json` with
numbers as exact rationals.  The browser builtins that the code calls
(`JSON.parse`, `String.prototype.match` with the five fixed field regexes,
`String.prototype.trim`) are modelled below faithfully to their standard
semantics, since they are library functions the repository relies on.
-/

namespace SnapToReport

/-- Whitespace class of the JavaScript regex `\s` and of
`String.prototype.trim`: ASCII whitespace plus the Unicode space
separators, line separator, paragraph separator, NBSP and BOM. -/
def isJsWsp (c : Char) : Bool :=
  c.toNat = 32 || (9 ≤ c.toNat && c.toNat ≤ 13) || c.toNat = 0xA0 ||
  c.toNat = 0x1680 || (0x2000 ≤ c.toNat && c.toNat ≤ 0x200A) ||
  c.toNat = 0x2028 || c.toNat = 0x2029 || c.toNat = 0x202F ||
  c.toNat = 0x205F || c.toNat = 0x3000 || c.toNat = 0xFEFF

/-- Model of `String.prototype.trim`: strip leading and trailing
JavaScript whitespace. -/
def jsTrim (s : List Char) : List Char :=
  ((s.dropWhile isJsWsp).reverse.dropWhile isJsWsp).reverse

/-- JavaScript runtime values that `JSON.parse` can produce.  Numbers are
modelled as exact rationals. -/
inductive Json where
  | null : Json
  | bool (b : Bool) : Json
  | num (q : Rat) : Json
  | str (s : String) : Json
  | arr (elems : List Json) : Json
  | obj (members : List (String × Json)) : Json

/-- Whitespace accepted between tokens by the JSON grammar (RFC 8259):
space, tab, line feed, carriage return. -/
def jsonWs (c : Char) : Bool :=
  c = ' ' || c = '\t' || c = '\n' || c = '\r'

/-- Skip JSON inter-token whitespace. -/
def skipWs (s : List Char) : List Char := s.dropWhile jsonWs

/-- Value of a hexadecimal digit, if the character is one. -/
def hexVal (c : Char) : Option Nat :=
  if '0' ≤ c ∧ c ≤ '9' then some (c.toNat - 48)
  else if 'a' ≤ c ∧ c ≤ 'f' then some (c.toNat - 87)
  else if 'A' ≤ c ∧ c ≤ 'F' then some (c.toNat - 55)
  else none

/-- Parse the body of a JSON string literal after the opening quote,
returning the decoded characters and the input after the closing quote. -/
def parseStrBody : List Char → Option (List Char × List Char)
  | [] => none
  | '"' :: r => some ([], r)
  | '\\' :: r =>
    match r with
    | [] => none
    | 'u' :: a :: b :: c :: d :: r3 =>
      match hexVal a, hexVal b, hexVal c, hexVal d with
      | some x, some y, some z, some w =>
        (parseStrBody r3).map (fun p => (Char.ofNat (((x * 16 + y) * 16 + z) * 16 + w) :: p.1, p.2))
      | _, _, _, _ => none
    | e :: r2 =>
      if e = '"' then (parseStrBody r2).map (fun p => ('"' :: p.1, p.2))
      else if e = '\\' then (parseStrBody r2).map (fun p => ('\\' :: p.1, p.2))
      else if e = '/' then (parseStrBody r2).map (fun p => ('/' :: p.1, p.2))
      else if e = 'b' then (parseStrBody r2).map (fun p => (Char.ofNat 8 :: p.1, p.2))
      else if e = 'f' then (parseStrBody r2).map (fun p => (Char.ofNat 12 :: p.1, p.2))
      else if e = 'n' then (parseStrBody r2).map (fun p => ('\n' :: p.1, p.2))
      else if e = 'r' then (parseStrBody r2).map (fun p => (Char.ofNat 13 :: p.1, p.2))
      else if e = 't' then (parseStrBody r2).map (fun p => ('\t' :: p.1, p.2))
      else none
  | c :: r =>
    if c.toNat < 32 then none
    else (parseStrBody r).map (fun p => (c :: p.1, p.2))

/-- Numeric value of a list of decimal digit characters. -/
def digitsToNat (ds : List Char) : Nat :=
  ds.foldl (fun n c => n * 10 + (c.toNat - 48)) 0

/-- Parse one-or-more decimal digits as a natural number. -/
def parseDigits1 (t : List Char) : Option (Int × List Char) :=
  let ds := t.takeWhile Char.isDigit
  if ds = [] then none
  else some ((digitsToNat ds : Int), t.dropWhile Char.isDigit)

/-- Parse an optionally signed decimal integer (exponent payload). -/
def parseSignedDigits : List Char → Option (Int × List Char)
  | '+' :: t => parseDigits1 t
  | '-' :: t => (parseDigits1 t).map (fun p => (-p.1, p.2))
  | t => parseDigits1 t

/-- Parse an optional exponent part of a JSON number; absent means 0. -/
def parseExpPart : List Char → Option (Int × List Char)
  | 'e' :: t => parseSignedDigits t
  | 'E' :: t => parseSignedDigits t
  | s => some (0, s)

/-- Parse a JSON number at the head of the input, per the RFC 8259 grammar
(optional minus, integer part without leading zeros, optional fraction,
optional exponent), yielding its exact rational value. -/
def parseNum (s : List Char) : Option (Json × List Char) :=
  let signed : Bool × List Char :=
    match s with
    | '-' :: t => (true, t)
    | _ => (false, s)
  let neg := signed.1
  let s1 := signed.2
  let intDs := s1.takeWhile Char.isDigit
  let r1 := s1.dropWhile Char.isDigit
  if intDs = [] then none
  else if 1 < intDs.length ∧ intDs.head? = some '0' then none
  else
    let fracRes : Option (List Char × List Char) :=
      match r1 with
      | '.' :: t =>
        let fd := t.takeWhile Char.isDigit
        if fd = [] then none else some (fd, t.dropWhile Char.isDigit)
      | _ => some ([], r1)
    match fracRes with
    | none => none
    | some (fracDs, r2) =>
      match parseExpPart r2 with
      | none => none
      | some (e, r3) =>
        let mant : Int := digitsToNat (intDs ++ fracDs)
        let mant := if neg then -mant else mant
        let q : Rat := (mant : Rat) * (10 : Rat) ^ (e - (fracDs.length : Int))
        some (Json.num q, r3)

mutual

/-- Fuel-indexed recursive-descent parser for a JSON value; returns the value
and the remaining input.  Model of the value grammar used by `JSON.parse`. -/
def parseVal : Nat → List Char → Option (Json × List Char)
  | 0, _ => none
  | fuel + 1, s =>
    match skipWs s with
    | 'n' :: 'u' :: 'l' :: 'l' :: r => some (Json.null, r)
    | 't' :: 'r' :: 'u' :: 'e' :: r => some (Json.bool true, r)
    | 'f' :: 'a' :: 'l' :: 's' :: 'e' :: r => some (Json.bool false, r)
    | '"' :: r => (parseStrBody r).map (fun p => (Json.str (String.mk p.1), p.2))
    | '[' :: r =>
      match skipWs r with
      | ']' :: r2 => some (Json.arr [], r2)
      | s2 => parseElems fuel s2 []
    | '{' :: r =>
      match skipWs r with
      | '}' :: r2 => some (Json.obj [], r2)
      | s2 => parseMembers fuel s2 []
    | s1 => parseNum s1

/-- Parse the comma-separated elements of a non-empty JSON array, up to and
including the closing bracket. -/
def parseElems : Nat → List Char → List Json → Option (Json × List Char)
  | 0, _, _ => none
  | fuel + 1, s, acc =>
    match parseVal fuel s with
    | none => none
    | some (v, r) =>
      match skipWs r with
      | ',' :: r2 => parseElems fuel r2 (acc ++ [v])
      | ']' :: r2 => some (Json.arr (acc ++ [v]), r2)
      | _ => none

/-- Parse the comma-separated members of a non-empty JSON object, up to and
including the closing brace. -/
def parseMembers : Nat → List Char → List (String × Json) → Option (Json × List Char)
  | 0, _, _ => none
  | fuel + 1, s, acc =>
    match skipWs s with
    | '"' :: r =>
      match parseStrBody r with
      | none => none
      | some (k, r2) =>
        match skipWs r2 with
        | ':' :: r3 =>
          match parseVal fuel r3 with
          | none => none
          | some (v, r4) =>
            match skipWs r4 with
            | ',' :: r5 => parseMembers fuel r5 (acc ++ [(String.mk k, v)])
            | '}' :: r5 => some (Json.obj (acc ++ [(String.mk k, v)]), r5)
            | _ => none
        | _ => none
    | _ => none

end

/-- Model of the JavaScript builtin `JSON.parse`: parse a complete JSON text,
rejecting trailing non-whitespace.  `none` models a thrown `SyntaxError`. -/
def jsonParse (s : List Char) : Option Json :=
  match parseVal (2 * s.length + 4) s with
  | some (v, r) => if skipWs r = [] then some v else none
  | none => none

/-- Strip an expected literal from the head of the input, or fail. -/
def dropLit : List Char → List Char → Option (List Char)
  | [], s => some s
  | _ :: _, [] => none
  | p :: ps, c :: cs => if p = c then dropLit ps cs else none

/-- Try to match the regex `"key":\s*"([^"]*?)"` at the very start of `s`,
returning the capture group.  After the literal `"key":`, the greedy `\s*`
takes all regex whitespace, a quote must follow, and the lazy capture
together with the mandatory closing quote makes the capture exactly the
characters up to the first quote after the opening one. -/
def capAt (key : List Char) (s : List Char) : Option (List Char) :=
  match dropLit ('"' :: key ++ ['"', ':']) s with
  | none => none
  | some s1 =>
    match dropLit ['"'] (s1.dropWhile isJsWsp) with
    | none => none
    | some s3 =>
      match dropLit ['"'] (s3.dropWhile (fun c => ¬ c = '"')) with
      | none => none
      | some _ => some (s3.takeWhile (fun c => ¬ c = '"'))

/-- Model of `s.match(/"key":\s*"([^"]*?)"/)`: the capture group of the
match at the leftmost position where the whole pattern matches, if any. -/
def findCapture (key : List Char) : List Char → Option (List Char)
  | [] => none
  | c :: t =>
    match capAt key (c :: t) with
    | some r => some r
    | none => findCapture key t

/-- Capture group of the field regex for `key` on `s`, or `[]` when the
pattern does not match.  In the source, a matched-but-empty capture fails the
`match[1]` truthiness test and leaves the field at its initial `""`, which
coincides with returning the (empty) capture itself. -/
def capOrEmpty (key s : List Char) : List Char :=
  match findCapture key s with
  | some c => c
  | none => []

/-- Result record of `parseReportString`.  Field values are JavaScript
runtime values: the regex branch always produces strings, but the JSON
branch stores whatever truthy value the parsed object carried. -/
structure ParsedReport where
  title : Json
  category : Json
  location : Json
  description : Json
  impact : Json

/-- Regex fallback branch of `parseReportString`: extract the five fields by
the fixed per-field patterns, then return `null` exactly when the `title`,
`category` and `description` fields are all empty (the truthiness test
`!result.title && !result.category && !result.description` of the source;
`location` and `impact` do not participate). -/
def regexFallback (s : List Char) : Option ParsedReport :=
  let t := capOrEmpty "title".data s
  let c := capOrEmpty "category".data s
  let l := capOrEmpty "location".data s
  let d := capOrEmpty "description".data s
  let i := capOrEmpty "impact".data s
  if t = [] ∧ c = [] ∧ d = [] then none
  else some ⟨Json.str (String.mk t), Json.str (String.mk c), Json.str (String.mk l),
    Json.str (String.mk d), Json.str (String.mk i)⟩

/-- JavaScript property access `v[k]` on a `JSON.parse` result, for values on
which property access does not throw: object lookup (later duplicate keys
overwrite earlier ones), `none` for a missing property and for all
non-object values.  Access on `null` throws and is handled by the caller. -/
def jsGet (v : Json) (k : String) : Option Json :=
  match v with
  | Json.obj kvs => kvs.foldl (fun acc p => if p.1 = k then some p.2 else acc) none
  | _ => none

/-- JavaScript truthiness of a `JSON.parse` value. -/
def truthy : Json → Bool
  | Json.null => false
  | Json.bool b => b
  | Json.num q => if q = 0 then false else true
  | Json.str s => if s = "" then false else true
  | Json.arr _ => true
  | Json.obj _ => true

/-- The expression `parsed[k] || ""` of the JSON branch: the property value
when present and truthy, and the empty string otherwise. -/
def fieldOrEmpty (v : Json) (k : String) : Json :=
  match jsGet v k with
  | some x => if truthy x then x else Json.str ""
  | none => Json.str ""

/-- JSON branch of `parseReportString`: build the report record from the
parsed value via `parsed.field || ""` for each of the five fields. -/
def jsonBranch (v : Json) : ParsedReport :=
  ⟨fieldOrEmpty v "title", fieldOrEmpty v "category", fieldOrEmpty v "location",
    fieldOrEmpty v "description", fieldOrEmpty v "impact"⟩

/-- Model of `parseReportString` from the uploader component: trim the
input and try `JSON.parse`; on success build the record by property access
(which throws for a parsed `null`, landing in the `catch` like a parse
failure); on failure run the regex fallback on the original string. -/
def parseReportString (s : List Char) : Option ParsedReport :=
  match jsonParse (jsTrim s) with
  | some Json.null => regexFallback s
  | some v => some (jsonBranch v)
  | none => regexFallback s

/-- Row of the `items` table as consumed by the dashboard (`Location`
interface).  Coordinates are modelled as exact rationals; the optional
columns that the aggregation never reads are kept as optional strings. -/
structure Location where
  id : String
  name : String
  latitude : Rat
  longitude : Rat
  category : String
  address : Option String := none
  report : Option String := none
  timestamp : Option String := none

/-- JavaScript runtime values the tally object stores: numeric counts, or
the strings produced when a category name collides with an inherited
`Object.prototype` member (the truthy inherited value defeats `|| 0` and
`+ 1` concatenates). -/
inductive JsVal where
  | num (n : Nat) : JsVal
  | str (s : String) : JsVal
deriving DecidableEq

/-- Keys at which a plain object created by `\x7b\x7d` inherits a truthy
function-valued data property from `Object.prototype`.  Plain assignment to
these keys shadows the inherited member with an own property.  The key
`__proto__` is handled separately: it is an inherited accessor whose setter
ignores non-object values. -/
def protoFunKeys : List String :=
  ["constructor", "hasOwnProperty", "isPrototypeOf", "propertyIsEnumerable",
    "toLocaleString", "toString", "valueOf", "__defineGetter__",
    "__defineSetter__", "__lookupGetter__", "__lookupSetter__"]

/-- String conversion of the inherited builtin function at key `k`, as
`ToString` renders it in V8 (the `constructor` entry holds the `Object`
function). -/
def protoFunSource (k : String) : String :=
  if k = "constructor" then "function Object() \x7b [native code] \x7d"
  else "function " ++ k ++ "() \x7b [native code] \x7d"

/-- First own entry of the tally with the given key (own keys are unique by
construction). -/
def entry? : List (String × JsVal) → String → Option (String × JsVal)
  | [], _ => none
  | p :: t, c => if p.1 = c then some p else entry? t c

/-- Value of the own property at `k`, if any. -/
def ownVal (m : List (String × JsVal)) (k : String) : Option JsVal :=
  match entry? m k with
  | some p => some p.2
  | none => none

/-- Plain-object assignment `m[k] = v` for a key other than `__proto__`:
overwrite the own property in place, or append a fresh own property at the
end, matching property-insertion order. -/
def setOwn : List (String × JsVal) → String → JsVal → List (String × JsVal)
  | [], k, v => [(k, v)]
  | (a, w) :: t, k, v => if a = k then (a, v) :: t else (a, w) :: setOwn t k v

/-- The value of `(locationsPerCategory[k] || 0) + 1` read against the tally
`m` with `Object.prototype` inheritance: a stored numeric count increments;
a stored string is truthy (when non-empty) and grows by concatenating `"1"`;
an absent key whose name collides with an inherited function member reads
that truthy function, so `+ 1` concatenates its string form; an ordinary
absent key reads `undefined`, `|| 0` fires, and the count starts at 1. -/
def bumpVal (m : List (String × JsVal)) (k : String) : JsVal :=
  match ownVal m k with
  | some (JsVal.num n) => JsVal.num (n + 1)
  | some (JsVal.str s) => if s = "" then JsVal.num 1 else JsVal.str (s ++ "1")
  | none =>
    if k ∈ protoFunKeys then JsVal.str (protoFunSource k ++ "1")
    else JsVal.num 1

/-- One step of the per-category tally
`locationsPerCategory[loc.category] = (locationsPerCategory[loc.category] || 0) + 1`
on the plain object `\x7b\x7d`.  For the key `__proto__` the assignment
invokes the inherited accessor setter of `Object.prototype`, which ignores
the non-object right-hand side: no own property is created and the tally is
unchanged.  Every other key stores `bumpVal` as an own property. -/
def bumpCat (m : List (String × JsVal)) (k : String) : List (String × JsVal) :=
  if k = "__proto__" then m else setOwn m k (bumpVal m k)

/-- The `locationsPerCategory` object of `edaData`: single forward pass over
the fetched rows, one assignment per row. -/
def locationsPerCategory (ls : List Location) : List (String × JsVal) :=
  ls.foldl (fun acc loc => bumpCat acc loc.category) []

/-- The numeric count stored for a key, `0` when absent or non-numeric. -/
def lookupCount (m : List (String × JsVal)) (c : String) : Nat :=
  match ownVal m c with
  | some (JsVal.num n) => n
  | _ => 0

/-- Comparator of `.sort((a, b) => b.count - a.count)`: descending on
numeric counts; a comparison touching a non-numeric stored value yields
`NaN`, which the sort treats as equality (order kept). -/
def cmpCount (a b : String × JsVal) : Bool :=
  match a.2, b.2 with
  | JsVal.num m, JsVal.num n => n ≤ m
  | _, _ => true

/-- The `sortedCategories` array of `edaData`: the `Object.entries` of the
tally sorted by count, descending. -/
def sortedCategories (ls : List Location) : List (String × JsVal) :=
  (locationsPerCategory ls).mergeSort cmpCount

/-- Specification-side measure: the number of records in the list whose
category field equals `c`. -/
def countCat (c : String) (ls : List Location) : Nat :=
  (ls.filter (fun l => l.category = c)).length

/-- Numeric reading of a stored tally value (a string is not a count). -/
def valNum : JsVal → Nat
  | JsVal.num n => n
  | JsVal.str _ => 0

/-- Sum of the numeric counts over all tally entries. -/
def sumCounts (m : List (String × JsVal)) : Nat :=
  (m.map (fun p => valNum p.2)).sum

/-- A tally all of whose stored values are numeric counts. -/
def CleanTally (m : List (String × JsVal)) : Prop :=
  ∀ p ∈ m, ∃ n, p.2 = JsVal.num n

/-- One insertion into a JavaScript `Set`: append the element at the end
unless already present. -/
def insertStr (s : List String) (x : String) : List String :=
  if x ∈ s then s else s ++ [x]

/-- Element list of `new Set(xs)` in insertion order. -/
def jsSetOf (xs : List String) : List String :=
  xs.foldl insertStr []

/-- The `uniqueCategories` statistic of `edaData`:
`new Set(locations.map(loc => loc.category)).size`. -/
def uniqueCategories (ls : List Location) : Nat :=
  (jsSetOf (ls.map (fun l => l.category))).length

/-- The latitude accumulation
`locations.reduce((sum, loc) => sum + loc.latitude, 0)`. -/
def sumLat (ls : List Location) : Rat :=
  ls.foldl (fun s l => s + l.latitude) 0

/-- The longitude accumulation
`locations.reduce((sum, loc) => sum + loc.longitude, 0)`. -/
def sumLon (ls : List Location) : Rat :=
  ls.foldl (fun s l => s + l.longitude) 0

/-- The `avgLatitude` statistic of `edaData`: initialised to `0` and
overwritten with `sum / totalLocations` only when rows exist. -/
def avgLatitude (ls : List Location) : Rat :=
  if 0 < ls.length then sumLat ls / (ls.length : Rat) else 0

/-- The `avgLongitude` statistic of `edaData`, analogous. -/
def avgLongitude (ls : List Location) : Rat :=
  if 0 < ls.length then sumLon ls / (ls.length : Rat) else 0

/-- Multipart form body: ordered field-name/value pairs.  All values this
code appends are strings (the public image URL and stringified
coordinates); a form arriving at the proxy is forwarded opaquely. -/
structure FormBody where
  entries : List (String × String)

/-- Outgoing `fetch` call as issued by the proxy route: target URL, method,
the `X-API-Key` and `accept` header values, and the forwarded form body. -/
structure FetchCall where
  url : String
  method : String
  apiKey : String
  acceptHdr : String
  body : FormBody

/-- Response of an upstream `fetch`: HTTP status and raw body text. -/
structure FetchResponse where
  status : Nat
  body : String

/-- The `res.ok` getter: status in the range 200..299. -/
def resOk (r : FetchResponse) : Prop :=
  200 ≤ r.status ∧ r.status < 300

instance (r : FetchResponse) : Decidable (resOk r) := by
  unfold resOk; infer_instance

/-- Model of the `POST` handler of `app/api/generate-report/route.ts`.  The
external backend is a function from the outgoing call to its response; the
handler appends `/generate-report` to the configured base URL, forwards the
incoming form with the API key header, parses the backend body as JSON
(`res.json()`), and re-emits it with the backend status.  `none` models the
handler throwing because the backend body was not JSON. -/
def generateReportPOST (baseUrl apiKey : String) (backend : FetchCall → FetchResponse)
    (form : FormBody) : Option (Json × Nat) :=
  let url := baseUrl ++ "/generate-report"
  let res := backend ⟨url, "POST", apiKey, "application/json", form⟩
  match jsonParse res.body.data with
  | some j => some (j, res.status)
  | none => none

/-- Options record passed to `getCurrentPosition`. -/
structure GeoOptions where
  enableHighAccuracy : Bool
  timeout : Nat

/-- Coordinates delivered by a successful geolocation position. -/
structure GeoCoords where
  latitude : Rat
  longitude : Rat

/-- Model of `getLocation` from `app/lib/getLocation.ts`.  The browser API is
`none` when `navigator.geolocation` is unsupported, otherwise a function
from the request options to the one-shot outcome (an error is modelled by
the message string the caller will observe).  The first component records
every `getCurrentPosition` request issued, in order. -/
def getLocation (geo : Option (GeoOptions → Except String GeoCoords)) :
    List GeoOptions × Except String (Rat × Rat) :=
  match geo with
  | none => ([], Except.error "Geolocation not supported")
  | some getCurrentPosition =>
    ([⟨true, 10000⟩],
      match getCurrentPosition ⟨true, 10000⟩ with
      | Except.ok c => Except.ok (c.latitude, c.longitude)
      | Except.error e => Except.error e)

/-- Selected file of the uploader. -/
structure File where
  name : String

/-- Observable side effects issued by one run of `submit`, in order. -/
inductive Effect where
  | geoRequest : Effect
  | storageUpload (path : String) : Effect
  | getPublicUrl (path : String) : Effect
  | postForm (url : String) (body : List (String × String)) : Effect

/-- Outcomes of the external calls `submit` may perform.  Thrown values are
modelled by the message string that the `catch` block will surface
(`err instanceof Error ? err.message : "Unknown error"`). -/
structure SubmitEnv where
  loc : Except String (Rat × Rat)
  uploadError : Option String
  publicUrl : String → String
  net : Except String FetchResponse

/-- Final observable state of one `submit` run: the effect trace, the
`message` state, and the `parsedReport` state. -/
structure SubmitResult where
  effects : List Effect
  message : Option String
  report : Option ParsedReport

/-- Model of `Number.prototype.toString` on a coordinate.  The exact digit
string is irrelevant to every claim; only that the stringified coordinate is
placed in the form field matters. -/
def numToString (q : Rat) : String :=
  toString q.num ++ "/" ++ toString q.den

/-- Tail of the `submit` handler after the POST resolved with a response:
throw on a non-OK status (the message is the thrown `Server error` text),
otherwise parse the body (`res.json()`), read `json.report`, run
`parseReportString`, and set the message and report states.  The two fixed
strings of the `res.json()` / `json.report` type-error paths stand for the
engine-generated text of the exceptions thrown and caught there. -/
def handleResponse (res : FetchResponse) : Option String × Option ParsedReport :=
  if resOk res then
    match jsonParse res.body.data with
    | none => (some "Unexpected token in JSON", none)
    | some j =>
      match jsGet j "report" with
      | some (Json.str s) =>
        match parseReportString s.data with
        | some pr => (some "Report generated successfully!", some pr)
        | none => (some (if s = "" then "Success!" else s), none)
      | _ => (some "reportStr.match is not a function", none)
  else (some ("Server error " ++ toString res.status), none)

/-- Model of the `submit` handler of the uploader component: guard on a
selected file, then sequentially await the device location, the storage
upload, the public URL, and the POST to `/api/generate-report`; the
response is handled by `handleResponse`.  Any throw is caught by the single
`catch`, which sets `message`. -/
def submit (file? : Option File) (env : SubmitEnv) : SubmitResult :=
  match file? with
  | none => ⟨[], none, none⟩
  | some f =>
    match env.loc with
    | Except.error e => ⟨[Effect.geoRequest], some e, none⟩
    | Except.ok (lat, lon) =>
      let filePath := f.name
      match env.uploadError with
      | some m =>
        ⟨[Effect.geoRequest, Effect.storageUpload filePath],
          some ("File upload failed: " ++ m), none⟩
      | none =>
        let imageUrl := env.publicUrl filePath
        let fd := [("file", imageUrl), ("latitude", numToString lat),
          ("longitude", numToString lon)]
        let effs := [Effect.geoRequest, Effect.storageUpload filePath,
          Effect.getPublicUrl filePath, Effect.postForm "/api/generate-report" fd]
        match env.net with
        | Except.error e => ⟨effs, some e, none⟩
        | Except.ok res => ⟨effs, (handleResponse res).1, (handleResponse res).2⟩

/-- Uploads appearing in an effect trace. -/
def isUpload : Effect → Bool
  | Effect.storageUpload _ => true
  | _ => false

/-- POSTs appearing in an effect trace. -/
def isPost : Effect → Bool
  | Effect.postForm _ _ => true
  | _ => false

/-- Number of storage uploads issued. -/
def uploadCount (effs : List Effect) : Nat :=
  (effs.filter isUpload).length

/-- Number of POSTs issued. -/
def postCount (effs : List Effect) : Nat :=
  (effs.filter isPost).length

/-- Declarative reading of the spec wording for the field regex
`"key":\s*"([^"]*?)"` matching somewhere in `s` with capture `cap`: the
string decomposes around a quoted key, a colon, regex whitespace, and a
quoted capture free of quote characters. -/
def PatternOccursAt (key s cap : List Char) : Prop :=
  ∃ pre ws rest,
    s = pre ++ '"' :: key ++ '"' :: ':' :: ws ++ '"' :: cap ++ '"' :: rest ∧
    (∀ c ∈ ws, isJsWsp c = true) ∧ (∀ c ∈ cap, ¬ c = '"')

/-- Declarative reading of the spec wording for one field of the JSON
branch: the output equals the parsed property when present with a truthy
value, and the empty string otherwise. -/
def FieldMatchesSpec (v : Json) (k : String) (out : Json) : Prop :=
  (∀ x, jsGet v k = some x → truthy x = true → out = x) ∧
  (jsGet v k = none → out = Json.str "") ∧
  (∀ x, jsGet v k = some x → truthy x = false → out = Json.str "")

theorem dropLit_sound (p : List Char) : ∀ s r, dropLit p s = some r → s = p ++ r := by
  induction p with
  | nil =>
    intro s r h
    simp only [dropLit, Option.some.injEq] at h
    simp [h]
  | cons a ps ih =>
    intro s r h
    cases s with
    | nil => exact absurd h (by simp [dropLit])
    | cons c cs =>
      simp only [dropLit] at h
      split at h
      · rename_i hac
        cases hac
        rw [List.cons_append, ih cs r h]
      · exact absurd h (by simp)

theorem capAt_sound (key s cap : List Char) (h : capAt key s = some cap) :
    ∃ ws rest,
      s = '"' :: key ++ '"' :: ':' :: ws ++ '"' :: cap ++ '"' :: rest ∧
      (∀ c ∈ ws, isJsWsp c = true) ∧ (∀ c ∈ cap, ¬ c = '"') := by
  unfold capAt at h
  cases hd : dropLit ('"' :: key ++ ['"', ':']) s with
  | none => rw [hd] at h; exact absurd h (by simp)
  | some s1 =>
    rw [hd] at h
    dsimp only at h
    have hs : s = ('"' :: key ++ ['"', ':']) ++ s1 := dropLit_sound _ s s1 hd
    cases hq : dropLit ['"'] (s1.dropWhile isJsWsp) with
    | none => rw [hq] at h; exact absurd h (by simp)
    | some s3 =>
      rw [hq] at h
      dsimp only at h
      have h1 : s1.dropWhile isJsWsp = '"' :: s3 := by
        simpa using dropLit_sound ['"'] _ s3 hq
      cases hrest : dropLit ['"'] (s3.dropWhile (fun c => ¬ c = '"')) with
      | none => rw [hrest] at h; exact absurd h (by simp)
      | some rest0 =>
        rw [hrest] at h
        have h3q : s3.dropWhile (fun c => ¬ c = '"') = '"' :: rest0 := by
          simpa using dropLit_sound ['"'] _ rest0 hrest
        simp only [Option.some.injEq] at h
        refine ⟨s1.takeWhile isJsWsp, rest0, ?_, ?_, ?_⟩
        · have h2 : s1 = s1.takeWhile isJsWsp ++ '"' :: s3 := by
            conv_lhs => rw [← List.takeWhile_append_dropWhile isJsWsp s1]
            rw [h1]
          have h4 : s3 = cap ++ '"' :: rest0 := by
            conv_lhs =>
              rw [← List.takeWhile_append_dropWhile (fun c => ¬ c = '"') s3]
            rw [h3q, h]
          rw [hs]
          conv_lhs => rw [h2]
          conv_lhs => rw [h4]
          simp
        · intro c hc; exact List.mem_takeWhile_imp hc
        · intro c hc
          rw [← h] at hc
          have := List.mem_takeWhile_imp hc
          simpa using this

theorem findCapture_sound (key : List Char) :
    ∀ s cap, findCapture key s = some cap → PatternOccursAt key s cap := by
  intro s
  induction s with
  | nil => intro cap h; exact absurd h (by simp [findCapture])
  | cons c t ih =>
    intro cap h
    simp only [findCapture] at h
    cases hcap : capAt key (c :: t) with
    | some r =>
      rw [hcap] at h
      simp only [Option.some.injEq] at h
      obtain ⟨ws, rest, hdec, hws, hcap2⟩ := capAt_sound key (c :: t) r hcap
      exact h ▸ ⟨[], ws, rest, by simpa using hdec, hws, hcap2⟩
    | none =>
      rw [hcap] at h
      obtain ⟨pre, ws, rest, hdec, hws, hcap2⟩ := ih cap h
      exact ⟨c :: pre, ws, rest, by simp [hdec], hws, hcap2⟩

/-- C1, corrected.  When JSON parsing of the trimmed input fails,
`parseReportString` runs the regex fallback on the original string; it
returns null exactly when none of the `title`, `category` and `description`
patterns yields a non-empty capture (a match of the `location` or `impact`
pattern alone does not prevent the null result); otherwise it returns a
report carrying the captured value of each pattern (empty string for fields whose
pattern did not match).  Any capture the matcher finds really is an
occurrence of the fixed per-field pattern in the input. -/
theorem parseReportString_regex_fallback (s : List Char)
    (h : jsonParse (jsTrim s) = none) :
    (parseReportString s = none ↔
      capOrEmpty "title".data s = [] ∧ capOrEmpty "category".data s = [] ∧
        capOrEmpty "description".data s = []) ∧
    (∀ r, parseReportString s = some r →
      r.title = Json.str (String.mk (capOrEmpty "title".data s)) ∧
      r.category = Json.str (String.mk (capOrEmpty "category".data s)) ∧
      r.location = Json.str (String.mk (capOrEmpty "location".data s)) ∧
      r.description = Json.str (String.mk (capOrEmpty "description".data s)) ∧
      r.impact = Json.str (String.mk (capOrEmpty "impact".data s))) ∧
    (∀ key cap, findCapture key s = some cap → PatternOccursAt key s cap) := by
  have hps : parseReportString s = regexFallback s := by
    unfold parseReportString
    rw [h]
  refine ⟨?_, ?_, fun key cap hk => findCapture_sound key s cap hk⟩
  · rw [hps]
    simp only [regexFallback]
    split
    · rename_i hcond
      simpa using hcond
    · rename_i hcond
      constructor
      · intro habs; exact absurd habs (by simp)
      · intro hand; exact absurd hand (by simpa using hcond)
  · intro r hr
    rw [hps] at hr
    simp only [regexFallback] at hr
    split at hr
    · exact absurd hr (by simp)
    · simp only [Option.some.injEq] at hr
      subst hr
      exact ⟨rfl, rfl, rfl, rfl, rfl⟩

/-- C1, counterexample to the claim as stated: on this input JSON parsing
fails and the `impact` pattern matches with the non-empty capture `severe`,
yet `parseReportString` returns null — so it is not the case that null is
returned exactly when none of the five patterns match. -/
theorem parseReportString_impact_only_counterexample :
    jsonParse (jsTrim "zzz \"impact\": \"severe\"".data) = none ∧
    findCapture "impact".data "zzz \"impact\": \"severe\"".data = some "severe".data ∧
    ¬ "severe".data = ([] : List Char) ∧
    parseReportString "zzz \"impact\": \"severe\"".data = none :=
  ⟨rfl, rfl, by simp, rfl⟩

/-- C1, witness: the corrected theorem applied at a concrete input whose
`title` pattern matches, evaluating to a non-null report carrying the
captured value. -/
theorem parseReportString_regex_fallback_witness :
    jsonParse (jsTrim "bad \"title\": \"Pothole\"".data) = none ∧
    (parseReportString "bad \"title\": \"Pothole\"".data = none ↔
      capOrEmpty "title".data "bad \"title\": \"Pothole\"".data = [] ∧
      capOrEmpty "category".data "bad \"title\": \"Pothole\"".data = [] ∧
      capOrEmpty "description".data "bad \"title\": \"Pothole\"".data = []) :=
  ⟨rfl, (parseReportString_regex_fallback "bad \"title\": \"Pothole\"".data rfl).1⟩

theorem fieldOrEmpty_matches (v : Json) (k : String) :
    FieldMatchesSpec v k (fieldOrEmpty v k) := by
  refine ⟨?_, ?_, ?_⟩
  · intro x hx ht
    unfold fieldOrEmpty
    rw [hx]
    simp [ht]
  · intro hx
    unfold fieldOrEmpty
    rw [hx]
  · intro x hx ht
    unfold fieldOrEmpty
    rw [hx]
    simp [ht]

/-- C6, corrected.  When `JSON.parse` on the trimmed input succeeds with a
value other than `null`, `parseReportString` returns a non-null report whose
five fields each equal the corresponding parsed property when present with a
truthy value and the empty string otherwise.  When the parsed value is
`null` itself, property access throws inside the `try`, so the call falls
through to the regex fallback (which may return null). -/
theorem parseReportString_json_branch (s : List Char) (v : Json)
    (h : jsonParse (jsTrim s) = some v) :
    (v = Json.null → parseReportString s = regexFallback s) ∧
    (¬ v = Json.null →
      ∃ r, parseReportString s = some r ∧
        FieldMatchesSpec v "title" r.title ∧
        FieldMatchesSpec v "category" r.category ∧
        FieldMatchesSpec v "location" r.location ∧
        FieldMatchesSpec v "description" r.description ∧
        FieldMatchesSpec v "impact" r.impact) := by
  constructor
  · intro hv
    subst hv
    unfold parseReportString
    rw [h]
  · intro hv
    refine ⟨jsonBranch v, ?_, fieldOrEmpty_matches v "title",
      fieldOrEmpty_matches v "category", fieldOrEmpty_matches v "location",
      fieldOrEmpty_matches v "description", fieldOrEmpty_matches v "impact"⟩
    unfold parseReportString
    rw [h]
    cases v with
    | null => exact absurd rfl hv
    | bool b => rfl
    | num q => rfl
    | str s2 => rfl
    | arr xs => rfl
    | obj kvs => rfl

/-- C6, counterexample to the claim as stated: the input `null` is accepted
by the JSON parser, yet `parseReportString` returns null for it (the
property accesses throw on the parsed `null`, and the regex fallback finds
nothing), so not every JSON-accepted string yields a non-null report. -/
theorem parseReportString_null_counterexample :
    jsonParse (jsTrim "null".data) = some Json.null ∧
    parseReportString "null".data = none :=
  ⟨rfl, rfl⟩

/-- C6, witness: the corrected theorem applied at a concrete JSON object
input, evaluating to a non-null report whose fields obey the field
specification. -/
theorem parseReportString_json_branch_witness :
    jsonParse (jsTrim "\x7b\"title\": \"T\"\x7d".data) =
      some (Json.obj [("title", Json.str "T")]) ∧
    (∃ r, parseReportString "\x7b\"title\": \"T\"\x7d".data = some r ∧
      FieldMatchesSpec (Json.obj [("title", Json.str "T")]) "title" r.title ∧
      FieldMatchesSpec (Json.obj [("title", Json.str "T")]) "category" r.category ∧
      FieldMatchesSpec (Json.obj [("title", Json.str "T")]) "location" r.location ∧
      FieldMatchesSpec (Json.obj [("title", Json.str "T")]) "description" r.description ∧
      FieldMatchesSpec (Json.obj [("title", Json.str "T")]) "impact" r.impact) :=
  ⟨rfl,
    (parseReportString_json_branch "\x7b\"title\": \"T\"\x7d".data
        (Json.obj [("title", Json.str "T")]) rfl).2
      (fun habs => Json.noConfusion habs)⟩

theorem entry_mem (m : List (String × JsVal)) (c : String) :
    ∀ p, entry? m c = some p → p ∈ m := by
  induction m with
  | nil => intro p h; exact absurd h (by simp [entry?])
  | cons q t ih =>
    intro p h
    simp only [entry?] at h
    split at h
    · simp only [Option.some.injEq] at h
      exact h ▸ List.mem_cons_self q t
    · exact List.mem_cons_of_mem q (ih p h)

theorem entry_setOwn_self (m : List (String × JsVal)) (k : String) (v : JsVal) :
    entry? (setOwn m k v) k = some (k, v) := by
  induction m with
  | nil => simp [setOwn, entry?]
  | cons p t ih =>
    obtain ⟨a, w⟩ := p
    by_cases hak : a = k
    · subst hak
      simp [setOwn, entry?]
    · simp only [setOwn, if_neg hak, entry?]
      exact ih

theorem entry_setOwn_ne (m : List (String × JsVal)) (k c : String) (v : JsVal)
    (hck : ¬ c = k) : entry? (setOwn m k v) c = entry? m c := by
  induction m with
  | nil =>
    simp only [setOwn, entry?]
    rw [if_neg (fun h => hck h.symm)]
  | cons p t ih =>
    obtain ⟨a, w⟩ := p
    by_cases hak : a = k
    · subst hak
      simp only [setOwn, if_pos rfl, entry?]
      rw [if_neg (fun h => hck h.symm), if_neg (fun h => hck h.symm)]
    · simp only [setOwn, if_neg hak, entry?]
      by_cases hac : a = c
      · rw [if_pos hac, if_pos hac]
      · rw [if_neg hac, if_neg hac, ih]

theorem mem_setOwn (m : List (String × JsVal)) (k : String) (v : JsVal) :
    ∀ p, p ∈ setOwn m k v → p = (k, v) ∨ p ∈ m := by
  induction m with
  | nil =>
    intro p hp
    simp only [setOwn, List.mem_singleton] at hp
    exact Or.inl hp
  | cons q t ih =>
    obtain ⟨a, w⟩ := q
    intro p hp
    by_cases hak : a = k
    · subst hak
      simp only [setOwn] at hp
      rw [if_true] at hp
      rcases List.mem_cons.mp hp with hp | hp
      · exact Or.inl hp
      · exact Or.inr (List.mem_cons_of_mem _ hp)
    · simp only [setOwn] at hp
      rw [if_neg hak] at hp
      rcases List.mem_cons.mp hp with hp | hp
      · exact Or.inr (by simp [hp])
      · rcases ih p hp with hp2 | hp2
        · exact Or.inl hp2
        · exact Or.inr (List.mem_cons_of_mem _ hp2)

theorem entry_bumpCat_ne (m : List (String × JsVal)) (k c : String) (hck : ¬ c = k) :
    entry? (bumpCat m k) c = entry? m c := by
  unfold bumpCat
  split
  · rfl
  · exact entry_setOwn_ne m k c (bumpVal m k) hck

theorem entry_bumpCat_self (m : List (String × JsVal)) (k : String)
    (hkp : ¬ k = "__proto__") (hkf : k ∉ protoFunKeys)
    (hc : entry? m k = none ∨ ∃ n, entry? m k = some (k, JsVal.num n)) :
    entry? (bumpCat m k) k = some (k, JsVal.num (lookupCount m k + 1)) := by
  unfold bumpCat
  rw [if_neg hkp, entry_setOwn_self]
  rcases hc with hc | ⟨n, hc⟩
  · have hov : ownVal m k = none := by unfold ownVal; rw [hc]
    have hv : bumpVal m k = JsVal.num 1 := by
      unfold bumpVal
      rw [hov]
      simp [hkf]
    have hl : lookupCount m k = 0 := by unfold lookupCount; rw [hov]
    rw [hv, hl]
  · have hov : ownVal m k = some (JsVal.num n) := by unfold ownVal; rw [hc]
    have hv : bumpVal m k = JsVal.num (n + 1) := by
      unfold bumpVal
      rw [hov]
    have hl : lookupCount m k = n := by unfold lookupCount; rw [hov]
    rw [hv, hl]

theorem entry_fold_not_mem (ls : List Location) :
    ∀ acc c, c ∉ ls.map (fun l => l.category) →
      entry? (ls.foldl (fun acc loc => bumpCat acc loc.category) acc) c = entry? acc c := by
  induction ls with
  | nil => intro acc c _; rfl
  | cons l t ih =>
    intro acc c h
    simp only [List.map_cons, List.mem_cons] at h
    push_neg at h
    obtain ⟨h1, h2⟩ := h
    rw [List.foldl_cons, ih _ c h2, entry_bumpCat_ne _ _ _ h1]

theorem countCat_nil_of_not_mem (t : List Location) (c : String)
    (h : c ∉ t.map (fun l => l.category)) : countCat c t = 0 := by
  induction t with
  | nil => rfl
  | cons l u ih =>
    simp only [List.map_cons, List.mem_cons] at h
    push_neg at h
    obtain ⟨h1, h2⟩ := h
    simp only [countCat, List.filter_cons]
    rw [if_neg (by simpa using fun hc => h1 hc.symm)]
    exact ih h2

theorem countCat_cons (c : String) (l : Location) (t : List Location) :
    countCat c (l :: t) = (if l.category = c then 1 else 0) + countCat c t := by
  simp only [countCat, List.filter_cons]
  by_cases hlc : l.category = c
  · rw [if_pos hlc, if_pos (by simpa using hlc)]
    simp [Nat.add_comm]
  · rw [if_neg hlc, if_neg (by simpa using hlc)]
    simp

theorem lookupCount_bumpCat_ne (m : List (String × JsVal)) (k c : String)
    (hck : ¬ c = k) : lookupCount (bumpCat m k) c = lookupCount m c := by
  unfold lookupCount ownVal
  rw [entry_bumpCat_ne m k c hck]

theorem entry_fold_mem (ls : List Location) :
    ∀ acc c, c ∈ ls.map (fun l => l.category) → ¬ c = "__proto__" →
      c ∉ protoFunKeys →
      (entry? acc c = none ∨ ∃ n, entry? acc c = some (c, JsVal.num n)) →
      entry? (ls.foldl (fun acc loc => bumpCat acc loc.category) acc) c =
        some (c, JsVal.num (lookupCount acc c + countCat c ls)) := by
  induction ls with
  | nil => intro acc c h _ _ _; exact absurd h (by simp)
  | cons l t ih =>
    intro acc c h hcp hcf hclean
    rw [List.foldl_cons, countCat_cons]
    by_cases hmem : c ∈ t.map (fun l => l.category)
    · have hclean2 : entry? (bumpCat acc l.category) c = none ∨
          ∃ n, entry? (bumpCat acc l.category) c = some (c, JsVal.num n) := by
        by_cases hcl : c = l.category
        · refine Or.inr ⟨lookupCount acc c + 1, ?_⟩
          rw [← hcl]
          exact entry_bumpCat_self acc c hcp hcf hclean
        · rw [entry_bumpCat_ne _ _ _ hcl]
          exact hclean
      rw [ih _ c hmem hcp hcf hclean2]
      by_cases hcl : c = l.category
      · have hbump : lookupCount (bumpCat acc l.category) c = lookupCount acc c + 1 := by
          rw [← hcl]
          unfold lookupCount ownVal
          rw [entry_bumpCat_self acc c hcp hcf hclean]
          rfl
        rw [hbump, if_pos hcl.symm]
        have harith : lookupCount acc c + 1 + countCat c t =
            lookupCount acc c + (1 + countCat c t) := by omega
        rw [harith]
      · rw [lookupCount_bumpCat_ne acc l.category c hcl,
          if_neg (fun hh => hcl hh.symm)]
        have harith : lookupCount acc c + countCat c t =
            lookupCount acc c + (0 + countCat c t) := by omega
        rw [← harith]
    · have hcl : l.category = c := by
        simp only [List.map_cons, List.mem_cons] at h
        rcases h with h | h
        · exact h.symm
        · exact absurd h hmem
      rw [entry_fold_not_mem t _ c hmem, hcl,
        entry_bumpCat_self acc c hcp hcf hclean,
        countCat_nil_of_not_mem t c hmem, if_pos rfl]

theorem cleanTally_bumpCat (m : List (String × JsVal)) (k : String)
    (hkf : k ∉ protoFunKeys) (hclean : CleanTally m) :
    CleanTally (bumpCat m k) := by
  unfold bumpCat
  split
  · exact hclean
  · intro p hp
    rcases mem_setOwn m k (bumpVal m k) p hp with hp | hp
    · subst hp
      show ∃ n, bumpVal m k = JsVal.num n
      unfold bumpVal
      cases he : ownVal m k with
      | none => simp [hkf]
      | some w =>
        have hw : ∃ n, w = JsVal.num n := by
          unfold ownVal at he
          cases he2 : entry? m k with
          | none => rw [he2] at he; exact absurd he (by simp)
          | some q =>
            rw [he2] at he
            simp only [Option.some.injEq] at he
            exact he ▸ hclean q (entry_mem m k q he2)
        obtain ⟨n, hn⟩ := hw
        subst hn
        exact ⟨n + 1, rfl⟩
    · exact hclean p hp

theorem sumCounts_setOwn (m : List (String × JsVal)) (k : String) (v : JsVal) :
    sumCounts (setOwn m k v) +
      (match entry? m k with
        | some p => valNum p.2
        | none => 0) = sumCounts m + valNum v := by
  induction m with
  | nil => simp [setOwn, sumCounts, entry?]
  | cons q t ih =>
    obtain ⟨a, w⟩ := q
    by_cases hak : a = k
    · subst hak
      simp only [setOwn, entry?, sumCounts, List.map_cons, List.sum_cons]
      rw [if_true, if_true]
      simp only [List.map_cons, List.sum_cons]
      omega
    · simp only [setOwn, entry?, sumCounts, List.map_cons, List.sum_cons]
      rw [if_neg hak, if_neg hak]
      simp only [List.map_cons, List.sum_cons]
      simp only [sumCounts] at ih
      omega

theorem sumCounts_bumpCat (m : List (String × JsVal)) (k : String)
    (hkp : ¬ k = "__proto__") (hkf : k ∉ protoFunKeys) (hclean : CleanTally m) :
    sumCounts (bumpCat m k) = sumCounts m + 1 := by
  unfold bumpCat
  rw [if_neg hkp]
  have h := sumCounts_setOwn m k (bumpVal m k)
  cases he : entry? m k with
  | none =>
    rw [he] at h
    have hov : ownVal m k = none := by unfold ownVal; rw [he]
    have hv : bumpVal m k = JsVal.num 1 := by
      unfold bumpVal
      rw [hov]
      simp [hkf]
    rw [hv] at h ⊢
    simp only [valNum] at h
    omega
  | some p =>
    obtain ⟨n, hn⟩ := hclean p (entry_mem m k p he)
    have hov : ownVal m k = some (JsVal.num n) := by
      unfold ownVal
      rw [he]
      dsimp only
      rw [hn]
    have hv : bumpVal m k = JsVal.num (n + 1) := by
      unfold bumpVal
      rw [hov]
    rw [he] at h
    dsimp only at h
    rw [hn, hv] at h
    rw [hv]
    simp only [valNum] at h
    omega

theorem sumCounts_fold (ls : List Location) :
    ∀ acc, (∀ l ∈ ls, ¬ l.category = "__proto__" ∧ l.category ∉ protoFunKeys) →
      CleanTally acc →
      sumCounts (ls.foldl (fun acc loc => bumpCat acc loc.category) acc) =
        sumCounts acc + ls.length := by
  induction ls with
  | nil => intro acc _ _; simp
  | cons l t ih =>
    intro acc h hclean
    obtain ⟨hlp, hlf⟩ := h l (List.mem_cons_self l t)
    rw [List.foldl_cons,
      ih _ (fun x hx => h x (List.mem_cons_of_mem l hx))
        (cleanTally_bumpCat acc l.category hlf hclean),
      sumCounts_bumpCat acc l.category hlp hlf hclean]
    simp only [List.length_cons]
    omega

/-- C2, corrected.  For every category value occurring in the rows that is
neither `__proto__` nor the name of an inherited `Object.prototype`
member, the tally holds an own entry with a numeric count equal to the
number of rows carrying that category; and when no row category collides
with `__proto__` or an inherited member name, the numeric counts over all
tally entries sum to the number of rows.  (A `__proto__` category leaves no
entry at all, and an inherited-member category stores a concatenated string
rather than a count, so the unrestricted claim fails.) -/
theorem locationsPerCategory_counts (ls : List Location) :
    (∀ c, c ∈ ls.map (fun l => l.category) → ¬ c = "__proto__" →
      c ∉ protoFunKeys →
      entry? (locationsPerCategory ls) c = some (c, JsVal.num (countCat c ls))) ∧
    ((∀ l ∈ ls, ¬ l.category = "__proto__" ∧ l.category ∉ protoFunKeys) →
      sumCounts (locationsPerCategory ls) = ls.length) := by
  constructor
  · intro c hc hcp hcf
    unfold locationsPerCategory
    rw [entry_fold_mem ls [] c hc hcp hcf (Or.inl rfl)]
    simp [lookupCount, ownVal, entry?]
  · intro h
    unfold locationsPerCategory
    rw [sumCounts_fold ls [] h (fun p hp => absurd hp (by simp))]
    simp [sumCounts]

/-- C2, counterexample to the claim as stated: a row whose category is
`__proto__` occurs in the list, yet the tally is empty (the inherited
setter ignores the write), so no count exists for it and the counts sum to
0, not 1; and a row whose category is `toString` stores the concatenated
string form of the inherited builtin, not the count 1. -/
theorem locationsPerCategory_proto_counterexample :
    "__proto__" ∈
      ([⟨"1", "a", 0, 0, "__proto__", none, none, none⟩] : List Location).map
        (fun l => l.category) ∧
    locationsPerCategory [⟨"1", "a", 0, 0, "__proto__", none, none, none⟩] = [] ∧
    sumCounts
        (locationsPerCategory [⟨"1", "a", 0, 0, "__proto__", none, none, none⟩]) = 0 ∧
    countCat "__proto__" [⟨"1", "a", 0, 0, "__proto__", none, none, none⟩] = 1 ∧
    entry? (locationsPerCategory [⟨"2", "b", 0, 0, "toString", none, none, none⟩])
        "toString" =
      some ("toString", JsVal.str "function toString() \x7b [native code] \x7d1") ∧
    countCat "toString" [⟨"2", "b", 0, 0, "toString", none, none, none⟩] = 1 :=
  ⟨by simp, rfl, rfl, rfl, rfl, rfl⟩

/-- C2, witness: the corrected count theorem applied to a concrete
three-row list with two ordinary categories, evaluating a tally entry and
the total. -/
theorem locationsPerCategory_counts_witness :
    entry?
        (locationsPerCategory
          [⟨"1", "a", 0, 0, "pothole", none, none, none⟩,
            ⟨"2", "b", 0, 0, "graffiti", none, none, none⟩,
            ⟨"3", "c", 0, 0, "pothole", none, none, none⟩]) "pothole" =
      some ("pothole", JsVal.num 2) ∧
    sumCounts
        (locationsPerCategory
          [⟨"1", "a", 0, 0, "pothole", none, none, none⟩,
            ⟨"2", "b", 0, 0, "graffiti", none, none, none⟩,
            ⟨"3", "c", 0, 0, "pothole", none, none, none⟩]) = 3 :=
  ⟨((locationsPerCategory_counts _).1 "pothole" (by simp) (by decide)
      (by decide)).trans rfl,
    (locationsPerCategory_counts _).2 (by decide)⟩

theorem keys_setOwn (m : List (String × JsVal)) (k : String) (v : JsVal) :
    (setOwn m k v).map (fun p => p.1) = insertStr (m.map (fun p => p.1)) k := by
  induction m with
  | nil => simp [setOwn, insertStr]
  | cons p t ih =>
    obtain ⟨a, w⟩ := p
    by_cases hak : a = k
    · subst hak
      simp [setOwn, insertStr]
    · have hka : ¬ k = a := fun h => hak h.symm
      simp only [setOwn, if_neg hak, List.map_cons, ih]
      unfold insertStr
      by_cases hk : k ∈ t.map (fun p => p.1) <;>
        simp [hk, hka, List.mem_cons]

theorem keys_bumpCat (m : List (String × JsVal)) (k : String)
    (hkp : ¬ k = "__proto__") :
    (bumpCat m k).map (fun p => p.1) = insertStr (m.map (fun p => p.1)) k := by
  unfold bumpCat
  rw [if_neg hkp]
  exact keys_setOwn m k (bumpVal m k)

theorem keys_fold (ls : List Location) :
    ∀ acc, (∀ l ∈ ls, ¬ l.category = "__proto__") →
      (ls.foldl (fun acc loc => bumpCat acc loc.category) acc).map (fun p => p.1) =
        (ls.map (fun l => l.category)).foldl insertStr (acc.map (fun p => p.1)) := by
  induction ls with
  | nil => intro acc _; rfl
  | cons l t ih =>
    intro acc h
    simp only [List.map_cons, List.foldl_cons]
    rw [ih _ (fun x hx => h x (List.mem_cons_of_mem l hx)),
      keys_bumpCat acc l.category (h l (List.mem_cons_self l t))]

/-- C7, corrected.  For every row list in which no category is `__proto__`,
the `uniqueCategories` statistic (size of the set of category values)
equals the number of entries in the rendered per-category count list.  (A
`__proto__` category is counted by the `Set` but produces no object entry,
so without the restriction the two counts disagree.) -/
theorem uniqueCategories_eq_sortedCategories_length (ls : List Location)
    (h : ∀ l ∈ ls, ¬ l.category = "__proto__") :
    uniqueCategories ls = (sortedCategories ls).length := by
  unfold sortedCategories
  rw [List.length_mergeSort]
  have hk := keys_fold ls [] h
  unfold uniqueCategories jsSetOf locationsPerCategory
  rw [← List.length_map (ls.foldl (fun acc loc => bumpCat acc loc.category) [])
      (fun p => p.1), hk]
  rfl

/-- C7, counterexample to the claim as stated: a single row with category
`__proto__` gives a set of one category but an empty tally, whose entry
list (and hence the sorted count list) has zero entries — the two ways of
counting distinct categories disagree. -/
theorem uniqueCategories_proto_counterexample :
    uniqueCategories [⟨"1", "a", 0, 0, "__proto__", none, none, none⟩] = 1 ∧
    (sortedCategories [⟨"1", "a", 0, 0, "__proto__", none, none, none⟩]).length = 0 := by
  constructor
  · rfl
  · unfold sortedCategories
    rw [List.length_mergeSort]
    rfl

/-- C7, witness: the corrected agreement theorem applied to a concrete
two-row list with ordinary categories. -/
theorem uniqueCategories_eq_sortedCategories_length_witness :
    uniqueCategories
        [⟨"1", "a", 0, 0, "pothole", none, none, none⟩,
          ⟨"2", "b", 0, 0, "graffiti", none, none, none⟩] =
      (sortedCategories
        [⟨"1", "a", 0, 0, "pothole", none, none, none⟩,
          ⟨"2", "b", 0, 0, "graffiti", none, none, none⟩]).length :=
  uniqueCategories_eq_sortedCategories_length _ (by decide)


theorem foldl_add_map (f : Location → Rat) (ls : List Location) :
    ∀ a : Rat, ls.foldl (fun s l => s + f l) a = a + (ls.map f).sum := by
  induction ls with
  | nil => intro a; simp
  | cons l t ih =>
    intro a
    rw [List.foldl_cons, ih (a + f l)]
    simp [add_assoc]

/-- C5, confirmed.  For a non-empty row list the average
latitude and longitude equal the sum of the latitudes (respectively
longitudes) divided by the number of rows, and for the empty list both
averages are the initial `0`. -/
theorem edaData_averages (ls : List Location) :
    (¬ ls = [] →
      avgLatitude ls = (ls.map (fun l => l.latitude)).sum / (ls.length : Rat) ∧
      avgLongitude ls = (ls.map (fun l => l.longitude)).sum / (ls.length : Rat)) ∧
    (ls = [] → avgLatitude ls = 0 ∧ avgLongitude ls = 0) := by
  constructor
  · intro h
    have hlen : 0 < ls.length := List.length_pos.mpr h
    unfold avgLatitude avgLongitude sumLat sumLon
    rw [if_pos hlen, if_pos hlen, foldl_add_map, foldl_add_map]
    simp
  · intro h
    subst h
    simp [avgLatitude, avgLongitude]

/-- C5, witness: the average theorem applied to a concrete two-row list,
evaluating both averages. -/
theorem edaData_averages_witness :
    avgLatitude
        [⟨"1", "a", 1, 10, "c", none, none, none⟩,
          ⟨"2", "b", 3, 20, "c", none, none, none⟩] =
      ((2 : Rat)) ∧
    avgLongitude
        [⟨"1", "a", 1, 10, "c", none, none, none⟩,
          ⟨"2", "b", 3, 20, "c", none, none, none⟩] =
      ((15 : Rat)) := by
  have h :=
    (edaData_averages
        [⟨"1", "a", 1, 10, "c", none, none, none⟩,
          ⟨"2", "b", 3, 20, "c", none, none, none⟩]).1
      (by simp)
  constructor
  · rw [h.1]; norm_num
  · rw [h.2]; norm_num

/-- C3, confirmed.  The `generate-report` proxy route forwards the incoming
multipart form unchanged to the backend URL built from the configured base,
as a POST carrying the API key in the `X-API-Key` header, and whenever the
backend body is JSON it responds with exactly that JSON value and exactly
the status code of the backend. -/
theorem generateReportPOST_forwards (baseUrl apiKey : String)
    (backend : FetchCall → FetchResponse) (form : FormBody) (j : Json)
    (h : jsonParse (backend ⟨baseUrl ++ "/generate-report", "POST", apiKey,
        "application/json", form⟩).body.data = some j) :
    generateReportPOST baseUrl apiKey backend form =
      some (j, (backend ⟨baseUrl ++ "/generate-report", "POST", apiKey,
        "application/json", form⟩).status) := by
  simp only [generateReportPOST]
  rw [h]

/-- C3, witness: the proxy theorem applied to a concrete backend returning
status 207 with the empty JSON object, evaluating to the same pair. -/
theorem generateReportPOST_forwards_witness :
    generateReportPOST "http://backend" "key"
        (fun _ => ⟨207, "\x7b\x7d"⟩) ⟨[("file", "http://img/a.jpg")]⟩ =
      some (Json.obj [], 207) :=
  generateReportPOST_forwards "http://backend" "key" (fun _ => ⟨207, "\x7b\x7d"⟩)
    ⟨[("file", "http://img/a.jpg")]⟩ (Json.obj []) rfl

/-- C8, confirmed.  `getLocation` never issues more than one geolocation
request; when the API is available it issues exactly one, configured with
high accuracy enabled and a 10000 ms timeout, resolving with the latitude/longitude
pair of the position on success and rejecting with the error of the request
on failure; when the API is unavailable it rejects without issuing any
request. -/
theorem getLocation_one_shot (geo : Option (GeoOptions → Except String GeoCoords)) :
    (getLocation geo).1.length ≤ 1 ∧
    (geo = none → (getLocation geo).1 = [] ∧
      (getLocation geo).2 = Except.error "Geolocation not supported") ∧
    (∀ api, geo = some api →
      (getLocation geo).1 = [⟨true, 10000⟩] ∧
      (∀ c, api ⟨true, 10000⟩ = Except.ok c →
        (getLocation geo).2 = Except.ok (c.latitude, c.longitude)) ∧
      (∀ e, api ⟨true, 10000⟩ = Except.error e →
        (getLocation geo).2 = Except.error e)) := by
  cases geo with
  | none =>
    refine ⟨by simp [getLocation], fun _ => ⟨rfl, rfl⟩, ?_⟩
    intro api h
    exact absurd h (by simp)
  | some api =>
    refine ⟨by simp [getLocation], by intro h; exact absurd h (by simp), ?_⟩
    intro api2 h
    injection h with h
    subst h
    refine ⟨rfl, ?_, ?_⟩
    · intro c hc
      simp [getLocation, hc]
    · intro e he
      simp [getLocation, he]

/-- C8, witness: the geolocation theorem applied to a concrete supported
API delivering coordinates (40, -74), evaluating the options of the single
request and the resolved pair. -/
theorem getLocation_one_shot_witness :
    (getLocation (some (fun _ => Except.ok ⟨40, -74⟩))).1 =
      [⟨true, 10000⟩] ∧
    (getLocation (some (fun _ => Except.ok ⟨40, -74⟩))).2 =
      Except.ok ((40 : Rat), (-74 : Rat)) := by
  have h :=
    (getLocation_one_shot (some (fun _ => Except.ok ⟨40, -74⟩))).2.2
      (fun _ => Except.ok ⟨40, -74⟩) rfl
  exact ⟨h.1, h.2.1 ⟨40, -74⟩ rfl⟩

/-- C4, confirmed.  Every failure inside `submit` — geolocation rejection,
storage-upload error, or a non-OK HTTP status from the proxy — is caught
and surfaced as a single plain message string (with no report shown), and
nothing is retried: every invocation issues at most one storage upload and
at most one POST. -/
theorem submit_errors_single_message (file? : Option File) (env : SubmitEnv) :
    uploadCount (submit file? env).effects ≤ 1 ∧
    postCount (submit file? env).effects ≤ 1 ∧
    (∀ f e, file? = some f → env.loc = Except.error e →
      (submit file? env).message = some e ∧ (submit file? env).report = none) ∧
    (∀ f p m, file? = some f → env.loc = Except.ok p → env.uploadError = some m →
      (submit file? env).message = some ("File upload failed: " ++ m) ∧
      (submit file? env).report = none) ∧
    (∀ f p res, file? = some f → env.loc = Except.ok p → env.uploadError = none →
      env.net = Except.ok res → ¬ resOk res →
      (submit file? env).message = some ("Server error " ++ toString res.status) ∧
      (submit file? env).report = none) := by
  obtain ⟨loc, uploadError, publicUrl, net⟩ := env
  refine ⟨?_, ?_, ?_, ?_, ?_⟩
  · cases file? with
    | none => simp [submit, uploadCount]
    | some f =>
      cases loc with
      | error e => simp [submit, uploadCount, List.filter, isUpload]
      | ok p =>
        obtain ⟨lat, lon⟩ := p
        cases uploadError with
        | some m => simp [submit, uploadCount, List.filter, isUpload]
        | none =>
          cases net with
          | error e => simp [submit, uploadCount, List.filter, isUpload]
          | ok res => simp [submit, uploadCount, List.filter, isUpload]
  · cases file? with
    | none => simp [submit, postCount]
    | some f =>
      cases loc with
      | error e => simp [submit, postCount, List.filter, isPost]
      | ok p =>
        obtain ⟨lat, lon⟩ := p
        cases uploadError with
        | some m => simp [submit, postCount, List.filter, isPost]
        | none =>
          cases net with
          | error e => simp [submit, postCount, List.filter, isPost]
          | ok res => simp [submit, postCount, List.filter, isPost]
  · intro f e hf hloc
    subst hf
    simp only at hloc
    subst hloc
    exact ⟨rfl, rfl⟩
  · intro f p m hf hloc hup
    subst hf
    simp only at hloc hup
    subst hloc
    subst hup
    obtain ⟨lat, lon⟩ := p
    exact ⟨rfl, rfl⟩
  · intro f p res hf hloc hup hnet hok
    subst hf
    simp only at hloc hup hnet
    subst hloc
    subst hup
    subst hnet
    obtain ⟨lat, lon⟩ := p
    constructor
    · show (handleResponse res).1 = _
      unfold handleResponse
      rw [if_neg hok]
    · show (handleResponse res).2 = _
      unfold handleResponse
      rw [if_neg hok]

/-- C4, witness: the error theorem applied to a concrete environment whose
geolocation request is rejected, evaluating the surfaced message, the
absent report, and the upload/POST bounds. -/
theorem submit_errors_single_message_witness :
    (submit (some ⟨"img.jpg"⟩)
        ⟨Except.error "User denied Geolocation", none, fun _ => "",
          Except.error "unreachable"⟩).message = some "User denied Geolocation" ∧
    (submit (some ⟨"img.jpg"⟩)
        ⟨Except.error "User denied Geolocation", none, fun _ => "",
          Except.error "unreachable"⟩).report = none ∧
    uploadCount (submit (some ⟨"img.jpg"⟩)
        ⟨Except.error "User denied Geolocation", none, fun _ => "",
          Except.error "unreachable"⟩).effects ≤ 1 :=
  ⟨((submit_errors_single_message (some ⟨"img.jpg"⟩)
      ⟨Except.error "User denied Geolocation", none, fun _ => "",
        Except.error "unreachable"⟩).2.2.1 ⟨"img.jpg"⟩
      "User denied Geolocation" rfl rfl).1,
    ((submit_errors_single_message (some ⟨"img.jpg"⟩)
      ⟨Except.error "User denied Geolocation", none, fun _ => "",
        Except.error "unreachable"⟩).2.2.1 ⟨"img.jpg"⟩
      "User denied Geolocation" rfl rfl).2,
    (submit_errors_single_message (some ⟨"img.jpg"⟩)
      ⟨Except.error "User denied Geolocation", none, fun _ => "",
        Except.error "unreachable"⟩).1⟩

/-- C9, confirmed.  With a selected file, `submit` sequences its steps in
order — geolocation request, storage upload of the file, public-URL lookup,
then a POST to `/api/generate-report` whose form holds exactly the fields
`file` (the public image URL), `latitude` and `longitude` — with no later
step issued once an earlier one fails; and on a successful, JSON, OK
response whose `report` string parses, the parsed report is displayed with
the success message. -/
theorem submit_sequences_steps (f : File) (env : SubmitEnv) :
    (∀ e, env.loc = Except.error e →
      (submit (some f) env).effects = [Effect.geoRequest]) ∧
    (∀ lat lon m, env.loc = Except.ok (lat, lon) → env.uploadError = some m →
      (submit (some f) env).effects =
        [Effect.geoRequest, Effect.storageUpload f.name]) ∧
    (∀ lat lon, env.loc = Except.ok (lat, lon) → env.uploadError = none →
      (submit (some f) env).effects =
        [Effect.geoRequest, Effect.storageUpload f.name, Effect.getPublicUrl f.name,
          Effect.postForm "/api/generate-report"
            [("file", env.publicUrl f.name), ("latitude", numToString lat),
              ("longitude", numToString lon)]]) ∧
    (∀ lat lon res j s pr, env.loc = Except.ok (lat, lon) → env.uploadError = none →
      env.net = Except.ok res → resOk res → jsonParse res.body.data = some j →
      jsGet j "report" = some (Json.str s) → parseReportString s.data = some pr →
      (submit (some f) env).report = some pr ∧
      (submit (some f) env).message = some "Report generated successfully!") := by
  obtain ⟨loc, uploadError, publicUrl, net⟩ := env
  refine ⟨?_, ?_, ?_, ?_⟩
  · intro e hloc
    simp only at hloc
    subst hloc
    rfl
  · intro lat lon m hloc hup
    simp only at hloc hup
    subst hloc
    subst hup
    rfl
  · intro lat lon hloc hup
    simp only at hloc hup
    subst hloc
    subst hup
    cases net with
    | error e => rfl
    | ok res => rfl
  · intro lat lon res j s pr hloc hup hnet hok hj hg hp
    simp only at hloc hup hnet
    subst hloc
    subst hup
    subst hnet
    have hhr : handleResponse res = (some "Report generated successfully!", some pr) := by
      unfold handleResponse
      rw [if_pos hok, hj]
      dsimp only
      rw [hg]
      dsimp only
      rw [hp]
    exact ⟨by show (handleResponse res).2 = _; rw [hhr],
      by show (handleResponse res).1 = _; rw [hhr]⟩

/-- C9, witness: the sequencing theorem applied to a concrete fully
successful environment, evaluating the full four-step effect trace and the
displayed parsed report. -/
theorem submit_sequences_steps_witness :
    (submit (some ⟨"img.jpg"⟩)
        ⟨Except.ok (1, 2), none, fun p => "http://img/" ++ p,
          Except.ok ⟨200, "\x7b\"report\": \"x \\\"title\\\": \\\"T\\\"\"\x7d"⟩⟩).effects =
      [Effect.geoRequest, Effect.storageUpload "img.jpg", Effect.getPublicUrl "img.jpg",
        Effect.postForm "/api/generate-report"
          [("file", "http://img/img.jpg"), ("latitude", numToString 1),
            ("longitude", numToString 2)]] ∧
    (submit (some ⟨"img.jpg"⟩)
        ⟨Except.ok (1, 2), none, fun p => "http://img/" ++ p,
          Except.ok ⟨200, "\x7b\"report\": \"x \\\"title\\\": \\\"T\\\"\"\x7d"⟩⟩).report =
      some ⟨Json.str "T", Json.str "", Json.str "", Json.str "", Json.str ""⟩ ∧
    (submit (some ⟨"img.jpg"⟩)
        ⟨Except.ok (1, 2), none, fun p => "http://img/" ++ p,
          Except.ok ⟨200, "\x7b\"report\": \"x \\\"title\\\": \\\"T\\\"\"\x7d"⟩⟩).message =
      some "Report generated successfully!" := by
  have hseq :=
    submit_sequences_steps ⟨"img.jpg"⟩
      ⟨Except.ok (1, 2), none, fun p => "http://img/" ++ p,
        Except.ok ⟨200, "\x7b\"report\": \"x \\\"title\\\": \\\"T\\\"\"\x7d"⟩⟩
  have hdisp :=
    hseq.2.2.2 1 2 ⟨200, "\x7b\"report\": \"x \\\"title\\\": \\\"T\\\"\"\x7d"⟩
      (Json.obj [("report", Json.str "x \"title\": \"T\"")]) "x \"title\": \"T\""
      ⟨Json.str "T", Json.str "", Json.str "", Json.str "", Json.str ""⟩
      rfl rfl rfl (by constructor <;> norm_num) rfl rfl rfl
  exact ⟨hseq.2.2.1 1 2 rfl rfl, hdisp.1, hdisp.2⟩

end SnapToReport
